import Mathlib

/-!
Shallow embedding of the Navi object registry (`src/engine/objects.rs`) and
the keyboard spawn path (`src/engine/input.rs`).

Modelling conventions:
* Rust `Entity` (an opaque handle with equality) is modelled as `Nat`.
* `f32` / `f64` scalars (positions, timestamps) are modelled as `Rat`; the
  claims only move these values around or do exact-representable arithmetic.
* `u32` counters (`next_id`, `id`) are modelled as `Nat`.  Rust integer
  arithmetic is checked: `self.next_id += 1` at `u32::MAX` is a program
  error (panic), never a silent wrap, so the counter never resets.
* `Vec` is modelled as `List`; `iter().position` + `Vec::remove(index)` is
  rendered as the structurally recursive `removeFirst`, and
  `iter_mut().find` + field assignment as `updateFirst`.
-/

/-- Embeds `ShapeType` from `objects.rs`. -/
inductive ShapeType where
  | Ball
  | Cube
  | Capsule
  | Cylinder
  | Cone
deriving DecidableEq, Repr

namespace ShapeType

/-- Embeds `ShapeType::all`: the fixed catalog order used by the UI cycle. -/
def all : List ShapeType :=
  [ShapeType.Ball, ShapeType.Cube, ShapeType.Capsule, ShapeType.Cylinder, ShapeType.Cone]

/-- Embeds `ShapeType::display_name`. -/
def display_name : ShapeType → String
  | ShapeType.Ball => "Ball"
  | ShapeType.Cube => "Cube"
  | ShapeType.Capsule => "Capsule"
  | ShapeType.Cylinder => "Cylinder"
  | ShapeType.Cone => "Cone"

end ShapeType

/-- Embeds Bevy's `Vec3` with exact rational coordinates. -/
structure Vec3 where
  x : Rat
  y : Rat
  z : Rat
deriving DecidableEq, Repr

/-- Embeds `GameObject` from `objects.rs` (the registry entry). -/
structure GameObject where
  id : Nat
  name : String
  entity : Nat
  shape_type : ShapeType
  position : Vec3
  created_at : Rat
deriving DecidableEq, Repr

/-- Embeds `GameObjectManager` (`objects: Vec<GameObject>`, `next_id: u32`). -/
structure GameObjectManager where
  objects : List GameObject
  next_id : Nat
deriving DecidableEq, Repr

/-- Embeds `GameObjectManager::default()`: empty list, counter 0. -/
def initManager : GameObjectManager := { objects := [], next_id := 0 }

/-- Removes the first element satisfying `p`, returning it and the remaining
list; renders `iter().position(p)` followed by `Vec::remove(index)`. -/
def removeFirst {α : Type} (p : α → Bool) : List α → Option (α × List α)
  | [] => none
  | x :: xs =>
      if p x then some (x, xs)
      else
        match removeFirst p xs with
        | some (y, ys) => some (y, x :: ys)
        | none => none

/-- Applies `f` to the first element satisfying `p`, leaving the rest alone;
renders `iter_mut().find(p)` followed by a field assignment. -/
def updateFirst {α : Type} (p : α → Bool) (f : α → α) : List α → List α
  | [] => []
  | x :: xs => if p x then f x :: xs else x :: updateFirst p f xs

namespace GameObjectManager

/-- Embeds `GameObjectManager::add_object` (objects.rs:107-132): assigns
`id = next_id`, builds the name from `custom_name` or the
`"<label> <id>"` fallback, appends the new object, increments the counter,
and returns the assigned id together with the updated manager. -/
def add_object (m : GameObjectManager) (entity : Nat) (shape_type : ShapeType)
    (position : Vec3) (custom_name : Option String) (timestamp : Rat) :
    Nat × GameObjectManager :=
  let id := m.next_id
  let name := custom_name.getD (shape_type.display_name ++ " " ++ toString id)
  let game_object : GameObject :=
    { id := id, name := name, entity := entity, shape_type := shape_type,
      position := position, created_at := timestamp }
  (id, { objects := m.objects ++ [game_object], next_id := m.next_id + 1 })

/-- Embeds `GameObjectManager::remove_object` (objects.rs:134-142): linear
scan for the first object with the given entity, detach and return it;
otherwise `None` and the manager is untouched. -/
def remove_object (m : GameObjectManager) (entity : Nat) :
    Option GameObject × GameObjectManager :=
  match removeFirst (fun obj => obj.entity == entity) m.objects with
  | some (removed, rest) => (some removed, { objects := rest, next_id := m.next_id })
  | none => (none, m)

/-- Embeds `GameObjectManager::get_object_by_entity` (objects.rs:144-146). -/
def get_object_by_entity (m : GameObjectManager) (entity : Nat) : Option GameObject :=
  m.objects.find? (fun obj => obj.entity == entity)

/-- Embeds `GameObjectManager::get_object_by_id` (objects.rs:148-150). -/
def get_object_by_id (m : GameObjectManager) (id : Nat) : Option GameObject :=
  m.objects.find? (fun obj => obj.id == id)

/-- Embeds `GameObjectManager::get_objects_by_type` (objects.rs:152-157). -/
def get_objects_by_type (m : GameObjectManager) (shape_type : ShapeType) : List GameObject :=
  m.objects.filter (fun obj => obj.shape_type == shape_type)

/-- Embeds the per-object summary line built inside `list_objects`:
`format!("{} (ID: {}, Type: {})", name, id, display_name)`. -/
def objSummary (obj : GameObject) : String :=
  obj.name ++ " (ID: " ++ toString obj.id ++ ", Type: " ++ obj.shape_type.display_name ++ ")"

/-- Embeds `GameObjectManager::list_objects` (objects.rs:159-171). -/
def list_objects (m : GameObjectManager) : List String :=
  m.objects.map objSummary

/-- Embeds the body of `update_object_positions_system` (objects.rs:269-282)
for a single changed entity: find the first object with that entity
back-reference and overwrite its cached position. -/
def update_position (m : GameObjectManager) (entity : Nat) (new_position : Vec3) :
    GameObjectManager :=
  { objects :=
      updateFirst (fun obj => obj.entity == entity)
        (fun obj => { obj with position := new_position }) m.objects,
    next_id := m.next_id }

end GameObjectManager

/-- Embeds the Tab branch of `shape_selection_ui` (objects.rs:244-256):
find the current shape's index in the catalog (defaulting to 0), advance by
one modulo the catalog length. -/
def cycleShape (current : ShapeType) : ShapeType :=
  let shapes := ShapeType.all
  let current_index := (shapes.findIdx? (fun s => s == current)).getD 0
  let next_index := (current_index + 1) % shapes.length
  shapes.getD next_index ShapeType.Ball

/-- Embeds `SpawnEntityEvent` from `objects.rs`. -/
structure SpawnEntityEvent where
  position : Vec3
  shape_type : ShapeType
  custom_name : Option String
deriving DecidableEq, Repr

/-- Embeds `handle_input` (input.rs:4-18): on a Space press, emit a spawn
event at `((rx - 0.5) * 10, 4, (rz - 0.5) * 10)` for the selected shape with
custom name "bob", where `rx`, `rz` are the two `rand::random::<f32>()`
draws (each in `[0, 1)`). -/
def handle_input (space_pressed : Bool) (rx rz : Rat) (selected : ShapeType) :
    Option SpawnEntityEvent :=
  if space_pressed then
    some { position := { x := (rx - 1/2) * 10, y := 4, z := (rz - 1/2) * 10 },
           shape_type := selected,
           custom_name := some "bob" }
  else none

/-- One registry operation, as driven by the lifecycle glue: a spawn
registration (`add_object`) or a destruction notification (`remove_object`). -/
inductive RegOp where
  | add (entity : Nat) (shape : ShapeType) (pos : Vec3) (custom_name : Option String) (ts : Rat)
  | remove (entity : Nat)
deriving DecidableEq, Repr

/-- Applies one operation to the manager, discarding the returned value. -/
def applyOp (m : GameObjectManager) : RegOp → GameObjectManager
  | RegOp.add e s p n t => (m.add_object e s p n t).2
  | RegOp.remove e => (m.remove_object e).2

/-- Runs a sequence of operations starting from `m`. -/
def runOpsFrom (m : GameObjectManager) : List RegOp → GameObjectManager
  | [] => m
  | op :: rest => runOpsFrom (applyOp m op) rest

/-- Runs a sequence of operations from the initial manager. -/
def runOps (ops : List RegOp) : GameObjectManager :=
  runOpsFrom initManager ops

/-- Collects the ids returned by the `add` calls of a sequence, in order. -/
def addIdsFrom (m : GameObjectManager) : List RegOp → List Nat
  | [] => []
  | RegOp.add e s p n t :: rest =>
      let r := m.add_object e s p n t
      r.1 :: addIdsFrom r.2 rest
  | RegOp.remove e :: rest => addIdsFrom (m.remove_object e).2 rest

/-- Counts the `add` operations in a sequence. -/
def countAdds (ops : List RegOp) : Nat :=
  ops.countP (fun op => match op with | RegOp.add _ _ _ _ _ => true | _ => false)

/-- Concrete registry entry used to instantiate theorems with hypotheses. -/
def objA : GameObject :=
  { id := 0, name := "a", entity := 5, shape_type := ShapeType.Ball,
    position := ⟨0, 0, 0⟩, created_at := 0 }

/-- Second concrete registry entry, with a different entity reference. -/
def objB : GameObject :=
  { id := 1, name := "b", entity := 6, shape_type := ShapeType.Cube,
    position := ⟨1, 0, 0⟩, created_at := 1 }

/-- Concrete two-object manager used to instantiate theorems with hypotheses. -/
def sampleMgr : GameObjectManager := { objects := [objA, objB], next_id := 2 }

/-- Concrete spawn event as emitted by the keyboard handler at draws 1/2. -/
def bobEv : SpawnEntityEvent :=
  { position := ⟨0, 4, 0⟩, shape_type := ShapeType.Ball, custom_name := some "bob" }

/-! ### Helper lemmas about `removeFirst` and `updateFirst` -/

theorem removeFirst_eq_none_of {α : Type} (p : α → Bool) (l : List α)
    (h : ∀ x ∈ l, p x = false) : removeFirst p l = none := by
  induction l with
  | nil => rfl
  | cons x xs ih =>
      have hx := h x (List.mem_cons_self x xs)
      simp [removeFirst, hx, ih (fun y hy => h y (List.mem_cons_of_mem x hy))]

theorem removeFirst_map_fst {α : Type} (p : α → Bool) (l : List α) :
    Option.map Prod.fst (removeFirst p l) = l.find? p := by
  induction l with
  | nil => rfl
  | cons x xs ih =>
      cases hx : p x with
      | true => simp [removeFirst, hx, List.find?_cons_of_pos _ hx]
      | false =>
          rw [List.find?_cons_of_neg _ (by simp [hx]), ← ih]
          cases hr : removeFirst p xs with
          | none => simp [removeFirst, hx, hr]
          | some r => simp [removeFirst, hx, hr]

theorem removeFirst_eq_some_decomp {α : Type} {p : α → Bool} {l : List α} {a : α}
    {l' : List α} (h : removeFirst p l = some (a, l')) :
    ∃ l₁ l₂, l = l₁ ++ a :: l₂ ∧ l' = l₁ ++ l₂ ∧ p a = true ∧ ∀ x ∈ l₁, p x = false := by
  induction l generalizing a l' with
  | nil => simp [removeFirst] at h
  | cons x xs ih =>
      cases hx : p x with
      | true =>
          simp only [removeFirst, hx, if_true] at h
          obtain ⟨rfl, rfl⟩ := Prod.mk.injEq .. ▸ Option.some.inj h
          exact ⟨[], xs, rfl, rfl, hx, by simp⟩
      | false =>
          simp only [removeFirst, hx, Bool.false_eq_true, if_false] at h
          cases hr : removeFirst p xs with
          | none => rw [hr] at h; simp at h
          | some r =>
              rw [hr] at h
              obtain ⟨y, ys⟩ := r
              simp only [Option.some.injEq, Prod.mk.injEq] at h
              obtain ⟨rfl, rfl⟩ := h
              obtain ⟨l₁, l₂, hl, hl', hp, hall⟩ := ih hr
              refine ⟨x :: l₁, l₂, by rw [hl, List.cons_append], by rw [hl', List.cons_append], hp, ?_⟩
              intro z hz
              rcases List.mem_cons.mp hz with rfl | hz'
              · exact hx
              · exact hall z hz'

theorem removeFirst_append_skip {α : Type} (p : α → Bool) (l₁ l₂ : List α)
    (h : ∀ x ∈ l₁, p x = false) :
    removeFirst p (l₁ ++ l₂) =
      Option.map (fun r => (r.1, l₁ ++ r.2)) (removeFirst p l₂) := by
  induction l₁ with
  | nil =>
      rw [List.nil_append]
      cases removeFirst p l₂ <;> simp
  | cons x xs ih =>
      have hx := h x (List.mem_cons_self x xs)
      rw [List.cons_append]
      simp only [removeFirst, hx, Bool.false_eq_true, if_false]
      rw [ih (fun y hy => h y (List.mem_cons_of_mem x hy))]
      cases removeFirst p l₂ <;> simp

theorem removeFirst_append_match {α : Type} (p : α → Bool) (l₁ l₂ : List α)
    (h : ∃ x ∈ l₁, p x = true) :
    removeFirst p (l₁ ++ l₂) =
      Option.map (fun r => (r.1, r.2 ++ l₂)) (removeFirst p l₁) := by
  induction l₁ with
  | nil => simp at h
  | cons x xs ih =>
      cases hx : p x with
      | true => simp [removeFirst, hx]
      | false =>
          have h' : ∃ y ∈ xs, p y = true := by
            rcases h with ⟨y, hy, hpy⟩
            rcases List.mem_cons.mp hy with rfl | hy'
            · rw [hx] at hpy; exact absurd hpy (by simp)
            · exact ⟨y, hy', hpy⟩
          rw [List.cons_append]
          simp only [removeFirst, hx, Bool.false_eq_true, if_false]
          rw [ih h']
          cases hr : removeFirst p xs with
          | none => simp
          | some r => simp

theorem updateFirst_eq_of_none {α : Type} (p : α → Bool) (f : α → α) (l : List α)
    (h : ∀ x ∈ l, p x = false) : updateFirst p f l = l := by
  induction l with
  | nil => rfl
  | cons x xs ih =>
      have hx := h x (List.mem_cons_self x xs)
      simp [updateFirst, hx, ih (fun y hy => h y (List.mem_cons_of_mem x hy))]

theorem updateFirst_decomp {α : Type} (p : α → Bool) (f : α → α) (l₁ : List α)
    (a : α) (l₂ : List α) (h₁ : ∀ x ∈ l₁, p x = false) (ha : p a = true) :
    updateFirst p f (l₁ ++ a :: l₂) = l₁ ++ f a :: l₂ := by
  induction l₁ with
  | nil => simp [updateFirst, ha]
  | cons x xs ih =>
      have hx := h₁ x (List.mem_cons_self x xs)
      simp [updateFirst, hx, ih (fun y hy => h₁ y (List.mem_cons_of_mem x hy))]

theorem removeFirst_some_of_match {α : Type} {p : α → Bool} {l : List α}
    (h : ∃ x ∈ l, p x = true) : ∃ r, removeFirst p l = some r := by
  cases hrf : removeFirst p l with
  | none =>
      exfalso
      have hfst := removeFirst_map_fst p l
      rw [hrf] at hfst
      rcases h with ⟨x, hx, hpx⟩
      exact (List.find?_eq_none.mp hfst.symm x hx) hpx
  | some r => exact ⟨r, rfl⟩

theorem remove_object_next_id (m : GameObjectManager) (e : Nat) :
    (m.remove_object e).2.next_id = m.next_id := by
  unfold GameObjectManager.remove_object
  split <;> rfl

/-! ### Claim theorems -/

/-- C5: the Tab cycle steps through the catalog order returned by
`ShapeType.all` (Ball, Cube, Capsule, Cylinder, Cone): five applications of
`cycleShape` return any starting kind to itself, one application sends Ball
to Cube, one application sends Cone back to Ball, and on the whole catalog
the cycle maps each kind to its successor with wraparound. -/
theorem cycle_catalog_order :
    (∀ s : ShapeType, cycleShape (cycleShape (cycleShape (cycleShape (cycleShape s)))) = s) ∧
    cycleShape ShapeType.Ball = ShapeType.Cube ∧
    cycleShape ShapeType.Cone = ShapeType.Ball ∧
    ShapeType.all.map cycleShape =
      [ShapeType.Cube, ShapeType.Capsule, ShapeType.Cylinder, ShapeType.Cone,
       ShapeType.Ball] := by
  refine ⟨fun s => ?_, rfl, rfl, rfl⟩
  cases s <;> rfl

/-- C4: removing an entity reference that no live object carries returns
`none` and leaves the whole manager unchanged (same objects in the same
order with the same contents, and the same `next_id`). -/
theorem remove_absent_noop (m : GameObjectManager) (e : Nat)
    (h : ∀ obj ∈ m.objects, obj.entity ≠ e) :
    m.remove_object e = (none, m) := by
  have hr : removeFirst (fun obj => obj.entity == e) m.objects = none :=
    removeFirst_eq_none_of _ _ (by
      intro x hx
      simp only [beq_eq_false_iff_ne, ne_eq]
      exact h x hx)
  unfold GameObjectManager.remove_object
  rw [hr]

/-- Witness for C4 at a concrete one-object manager and a missing entity. -/
theorem remove_absent_noop_witness :
    (∀ obj ∈ (GameObjectManager.mk
        [{ id := 0, name := "Ball 0", entity := 1, shape_type := ShapeType.Ball,
           position := ⟨0, 0, 0⟩, created_at := 0 }] 1).objects, obj.entity ≠ 2) ∧
    (GameObjectManager.mk
        [{ id := 0, name := "Ball 0", entity := 1, shape_type := ShapeType.Ball,
           position := ⟨0, 0, 0⟩, created_at := 0 }] 1).remove_object 2 =
      (none, GameObjectManager.mk
        [{ id := 0, name := "Ball 0", entity := 1, shape_type := ShapeType.Ball,
           position := ⟨0, 0, 0⟩, created_at := 0 }] 1) := by
  refine ⟨by decide, remove_absent_noop _ 2 (by decide)⟩

/-- C2: on any manager whose stored ids are all below `next_id` (true in
every reachable state), `add_object` returns `next_id` as the fresh id, and
looking that id up immediately afterwards yields exactly the object built
from the arguments: the given entity, shape, position and timestamp, with
the custom name when given and the "label id" fallback otherwise. -/
theorem add_then_get_by_id (m : GameObjectManager) (e : Nat) (s : ShapeType)
    (p : Vec3) (n : Option String) (t : Rat)
    (hinv : ∀ obj ∈ m.objects, obj.id < m.next_id) :
    (m.add_object e s p n t).1 = m.next_id ∧
    (m.add_object e s p n t).2.get_object_by_id ((m.add_object e s p n t).1) =
      some { id := m.next_id,
             name := n.getD (s.display_name ++ " " ++ toString m.next_id),
             entity := e, shape_type := s, position := p, created_at := t } := by
  refine ⟨rfl, ?_⟩
  have hnone : m.objects.find? (fun obj => obj.id == m.next_id) = none := by
    rw [List.find?_eq_none]
    intro x hx
    simp only [beq_iff_eq]
    exact Nat.ne_of_lt (hinv x hx)
  simp only [GameObjectManager.add_object, GameObjectManager.get_object_by_id]
  rw [List.find?_append, hnone, Option.none_or]
  simp [List.find?]

/-- Witness for C2: add to the empty manager and read the object back. -/
theorem add_then_get_by_id_witness :
    (∀ obj ∈ initManager.objects, obj.id < initManager.next_id) ∧
    (initManager.add_object 3 ShapeType.Ball ⟨1, 2, 3⟩ none 0).1 = initManager.next_id ∧
    (initManager.add_object 3 ShapeType.Ball ⟨1, 2, 3⟩ none 0).2.get_object_by_id
        ((initManager.add_object 3 ShapeType.Ball ⟨1, 2, 3⟩ none 0).1) =
      some { id := initManager.next_id,
             name := (none : Option String).getD
               (ShapeType.Ball.display_name ++ " " ++ toString initManager.next_id),
             entity := 3, shape_type := ShapeType.Ball, position := ⟨1, 2, 3⟩,
             created_at := 0 } := by
  have h : ∀ obj ∈ initManager.objects, obj.id < initManager.next_id := by
    intro obj hobj
    simp [initManager] at hobj
  exact ⟨h, add_then_get_by_id initManager 3 ShapeType.Ball ⟨1, 2, 3⟩ none 0 h⟩

/-- C3: removing an entity reference carried by at least one live object
returns the first such object in insertion order (the same object
`get_object_by_entity` reports), shrinks the registry by exactly one entry,
and when that entity occurred exactly once, a subsequent
`get_object_by_entity` on the new state reports absent. -/
theorem remove_present_spec (m : GameObjectManager) (e : Nat)
    (h : ∃ obj ∈ m.objects, obj.entity = e) :
    (m.remove_object e).1 = m.get_object_by_entity e ∧
    (m.remove_object e).2.objects.length + 1 = m.objects.length ∧
    (m.objects.countP (fun obj => obj.entity == e) = 1 →
      (m.remove_object e).2.get_object_by_entity e = none) := by
  have hbool : ∃ x ∈ m.objects, (fun obj => obj.entity == e) x = true := by
    rcases h with ⟨obj, hm, hobj⟩
    exact ⟨obj, hm, by simp [hobj]⟩
  obtain ⟨⟨a, rest⟩, hrf⟩ := removeFirst_some_of_match hbool
  have hfst := removeFirst_map_fst (fun obj => obj.entity == e) m.objects
  rw [hrf] at hfst
  obtain ⟨l₁, l₂, hl, hrest, hpa, hl₁⟩ := removeFirst_eq_some_decomp hrf
  have hrem : m.remove_object e = (some a, ⟨rest, m.next_id⟩) := by
    simp [GameObjectManager.remove_object, hrf]
  refine ⟨?_, ?_, ?_⟩
  · rw [hrem]
    simpa [GameObjectManager.get_object_by_entity] using hfst
  · rw [hrem, hrest, hl]
    simp only [List.length_append, List.length_cons]
    omega
  · intro hcount
    rw [hl, List.countP_append, List.countP_cons, hpa, if_pos rfl] at hcount
    have h₁ : List.countP (fun obj => obj.entity == e) l₁ = 0 := by omega
    have h₂ : List.countP (fun obj => obj.entity == e) l₂ = 0 := by omega
    rw [hrem]
    show (⟨rest, m.next_id⟩ : GameObjectManager).get_object_by_entity e = none
    rw [GameObjectManager.get_object_by_entity, hrest, List.find?_eq_none]
    intro x hx
    rcases List.mem_append.mp hx with hx' | hx'
    · exact List.countP_eq_zero.mp h₁ x hx'
    · exact List.countP_eq_zero.mp h₂ x hx'

/-- Witness for C3 at a concrete two-object manager, removing entity 5. -/
theorem remove_present_spec_witness :
    (∃ obj ∈ sampleMgr.objects, obj.entity = 5) ∧
    sampleMgr.objects.countP (fun obj => obj.entity == 5) = 1 ∧
    (sampleMgr.remove_object 5).1 = sampleMgr.get_object_by_entity 5 ∧
    (sampleMgr.remove_object 5).2.objects.length + 1 = sampleMgr.objects.length ∧
    (sampleMgr.remove_object 5).2.get_object_by_entity 5 = none := by
  have h : ∃ obj ∈ sampleMgr.objects, obj.entity = 5 := by decide
  have hs := remove_present_spec sampleMgr 5 h
  exact ⟨h, by decide, hs.1, hs.2.1, hs.2.2 (by decide)⟩

/-- C7: refreshing a cached position by entity reference keeps `next_id`; if
no live object carries the entity reference the whole manager is unchanged;
and if the objects split as `l₁ ++ obj :: l₂` with the first match `obj`,
only that object's `position` field is overwritten — its other fields and
every other object are untouched. -/
theorem update_position_spec (m : GameObjectManager) (e : Nat) (p : Vec3) :
    (m.update_position e p).next_id = m.next_id ∧
    ((∀ obj ∈ m.objects, obj.entity ≠ e) → m.update_position e p = m) ∧
    (∀ l₁ obj l₂, m.objects = l₁ ++ obj :: l₂ → (∀ o ∈ l₁, o.entity ≠ e) →
      obj.entity = e →
      (m.update_position e p).objects = l₁ ++ { obj with position := p } :: l₂) := by
  refine ⟨rfl, ?_, ?_⟩
  · intro h
    have hid : updateFirst (fun obj => obj.entity == e)
        (fun obj => { obj with position := p }) m.objects = m.objects :=
      updateFirst_eq_of_none _ _ _ (by
        intro x hx
        simp only [beq_eq_false_iff_ne, ne_eq]
        exact h x hx)
    simp [GameObjectManager.update_position, hid]
  · intro l₁ obj l₂ hdec hl₁ hobj
    simp only [GameObjectManager.update_position, hdec]
    exact updateFirst_decomp _ _ l₁ obj l₂
      (fun x hx => by
        simp only [beq_eq_false_iff_ne, ne_eq]
        exact hl₁ x hx)
      (by simp [hobj])

/-- Witness for C7: update entity 6 in the concrete two-object manager. -/
theorem update_position_spec_witness :
    (sampleMgr.update_position 6 ⟨9, 9, 9⟩).next_id = sampleMgr.next_id ∧
    sampleMgr.objects = [objA] ++ objB :: [] ∧
    (∀ o ∈ [objA], o.entity ≠ 6) ∧
    objB.entity = 6 ∧
    (sampleMgr.update_position 6 ⟨9, 9, 9⟩).objects =
      [objA] ++ { objB with position := ⟨9, 9, 9⟩ } :: [] := by
  have hs := update_position_spec sampleMgr 6 ⟨9, 9, 9⟩
  exact ⟨hs.1, by decide, by decide, by decide,
    hs.2.2 [objA] objB [] (by decide) (by decide) (by decide)⟩

/-- C9: `add_object` performs no uniqueness check on the entity
back-reference: on a manager that already holds an object with entity `e`,
adding another object with entity `e` succeeds and raises the number of live
objects carrying `e` by one (so at least two coexist); a subsequent
`remove_object e` detaches only the earliest-inserted match (the one
`get_object_by_entity` reported before the add) and the newly added
duplicate stays live. -/
theorem duplicate_entity_add_remove (m : GameObjectManager) (e : Nat) (s : ShapeType)
    (p : Vec3) (n : Option String) (t : Rat)
    (h : ∃ obj ∈ m.objects, obj.entity = e) :
    (m.add_object e s p n t).2.objects.countP (fun obj => obj.entity == e) =
      m.objects.countP (fun obj => obj.entity == e) + 1 ∧
    2 ≤ (m.add_object e s p n t).2.objects.countP (fun obj => obj.entity == e) ∧
    ((m.add_object e s p n t).2.remove_object e).1 = m.get_object_by_entity e ∧
    ({ id := m.next_id, name := n.getD (s.display_name ++ " " ++ toString m.next_id),
       entity := e, shape_type := s, position := p, created_at := t } : GameObject) ∈
      ((m.add_object e s p n t).2.remove_object e).2.objects := by
  have hbool : ∃ x ∈ m.objects, (fun obj => obj.entity == e) x = true := by
    rcases h with ⟨obj, hm, hobj⟩
    exact ⟨obj, hm, by simp [hobj]⟩
  have hadd : (m.add_object e s p n t).2.objects = m.objects ++
      [{ id := m.next_id, name := n.getD (s.display_name ++ " " ++ toString m.next_id),
         entity := e, shape_type := s, position := p, created_at := t }] := rfl
  have hcount : (m.add_object e s p n t).2.objects.countP (fun obj => obj.entity == e) =
      m.objects.countP (fun obj => obj.entity == e) + 1 := by
    rw [hadd, List.countP_append]
    simp [List.countP_cons]
  have hpos : 0 < m.objects.countP (fun obj => obj.entity == e) :=
    List.countP_pos_iff.mpr hbool
  obtain ⟨⟨a, rest⟩, hrf⟩ := removeFirst_some_of_match hbool
  have hmap := removeFirst_append_match (fun obj => obj.entity == e) m.objects
    [{ id := m.next_id, name := n.getD (s.display_name ++ " " ++ toString m.next_id),
       entity := e, shape_type := s, position := p, created_at := t }] hbool
  rw [hrf] at hmap
  have hrf2 : removeFirst (fun obj => obj.entity == e)
      ((m.add_object e s p n t).2.objects) = some (a, rest ++
      [{ id := m.next_id, name := n.getD (s.display_name ++ " " ++ toString m.next_id),
         entity := e, shape_type := s, position := p, created_at := t }]) := by
    rw [hadd, hmap]
    rfl
  have hrem : ((m.add_object e s p n t).2).remove_object e =
      (some a, ⟨rest ++
        [{ id := m.next_id, name := n.getD (s.display_name ++ " " ++ toString m.next_id),
           entity := e, shape_type := s, position := p, created_at := t }],
        m.next_id + 1⟩) := by
    simp only [GameObjectManager.remove_object, hrf2]
    rfl
  have hfst := removeFirst_map_fst (fun obj => obj.entity == e) m.objects
  rw [hrf] at hfst
  refine ⟨hcount, ?_, ?_, ?_⟩
  · rw [hcount]
    omega
  · rw [hrem]
    simpa [GameObjectManager.get_object_by_entity] using hfst
  · rw [hrem]
    simp

/-- Witness for C9: add a duplicate of entity 5 to the concrete manager. -/
theorem duplicate_entity_add_remove_witness :
    (∃ obj ∈ sampleMgr.objects, obj.entity = 5) ∧
    (sampleMgr.add_object 5 ShapeType.Cone ⟨2, 2, 2⟩ (some "dup") 7).2.objects.countP
        (fun obj => obj.entity == 5) =
      sampleMgr.objects.countP (fun obj => obj.entity == 5) + 1 ∧
    2 ≤ (sampleMgr.add_object 5 ShapeType.Cone ⟨2, 2, 2⟩ (some "dup") 7).2.objects.countP
        (fun obj => obj.entity == 5) ∧
    ((sampleMgr.add_object 5 ShapeType.Cone ⟨2, 2, 2⟩ (some "dup") 7).2.remove_object 5).1 =
      sampleMgr.get_object_by_entity 5 ∧
    ({ id := sampleMgr.next_id,
       name := (some "dup").getD (ShapeType.Cone.display_name ++ " " ++
         toString sampleMgr.next_id),
       entity := 5, shape_type := ShapeType.Cone, position := ⟨2, 2, 2⟩,
       created_at := 7 } : GameObject) ∈
      ((sampleMgr.add_object 5 ShapeType.Cone ⟨2, 2, 2⟩ (some "dup") 7).2.remove_object
        5).2.objects := by
  have h : ∃ obj ∈ sampleMgr.objects, obj.entity = 5 := by decide
  have hs := duplicate_entity_add_remove sampleMgr 5 ShapeType.Cone ⟨2, 2, 2⟩ (some "dup") 7 h
  exact ⟨h, hs.1, hs.2.1, hs.2.2.1, hs.2.2.2⟩

theorem runOpsFrom_next_id (ops : List RegOp) : ∀ m : GameObjectManager,
    (runOpsFrom m ops).next_id = m.next_id + countAdds ops := by
  induction ops with
  | nil => intro m; simp [runOpsFrom, countAdds]
  | cons op rest ih =>
      intro m
      cases op with
      | add e s p n t =>
          rw [runOpsFrom, ih]
          have hstep : (applyOp m (RegOp.add e s p n t)).next_id = m.next_id + 1 := rfl
          rw [hstep]
          simp [countAdds, List.countP_cons]
          omega
      | remove e =>
          rw [runOpsFrom, ih]
          have hstep : (applyOp m (RegOp.remove e)).next_id = m.next_id :=
            remove_object_next_id m e
          rw [hstep]
          simp [countAdds, List.countP_cons]

theorem addIdsFrom_eq_range (ops : List RegOp) : ∀ m : GameObjectManager,
    addIdsFrom m ops = (List.range (countAdds ops)).map (fun k => m.next_id + k) := by
  induction ops with
  | nil => intro m; simp [addIdsFrom, countAdds]
  | cons op rest ih =>
      intro m
      cases op with
      | add e s p n t =>
          have hc : countAdds (RegOp.add e s p n t :: rest) = countAdds rest + 1 := by
            simp [countAdds, List.countP_cons]
          have hfst : (m.add_object e s p n t).1 = m.next_id := rfl
          have hsnd : (m.add_object e s p n t).2.next_id = m.next_id + 1 := rfl
          rw [addIdsFrom, ih, hc, List.range_succ_eq_map, List.map_cons, List.map_map]
          simp only [hfst, hsnd]
          refine List.cons_eq_cons.mpr ⟨by omega, ?_⟩
          refine List.map_congr_left ?_
          intro k _
          simp only [Function.comp]
          omega
      | remove e =>
          have hc : countAdds (RegOp.remove e :: rest) = countAdds rest := by
            simp [countAdds, List.countP_cons]
          rw [addIdsFrom, ih, hc]
          simp only [remove_object_next_id]

/-- C1: starting from the initial manager, the ids handed out by the `add`
calls of any operation sequence are exactly `0, 1, 2, ...` (the range of the
number of adds, in order), hence pairwise distinct — no id is ever assigned
twice — and the counter never decreases: along any split of the sequence
into a prefix and a suffix, `next_id` after the prefix is at most `next_id`
after the whole sequence, removals notwithstanding. -/
theorem add_ids_sequential (ops pre suf : List RegOp) (hsplit : ops = pre ++ suf) :
    addIdsFrom initManager ops = List.range (countAdds ops) ∧
    (addIdsFrom initManager ops).Nodup ∧
    (runOps pre).next_id ≤ (runOps ops).next_id := by
  subst hsplit
  have h1 : addIdsFrom initManager (pre ++ suf) = List.range (countAdds (pre ++ suf)) := by
    rw [addIdsFrom_eq_range]
    simp [initManager]
  refine ⟨h1, ?_, ?_⟩
  · rw [h1]
    exact List.nodup_range _
  · simp only [runOps]
    rw [runOpsFrom_next_id, runOpsFrom_next_id]
    have hca : countAdds (pre ++ suf) = countAdds pre + countAdds suf :=
      List.countP_append _ _ _
    omega

/-- Witness for C1 on a concrete sequence: add, remove the entity, add. -/
theorem add_ids_sequential_witness :
    addIdsFrom initManager
        [RegOp.add 1 ShapeType.Ball ⟨0, 0, 0⟩ none 0, RegOp.remove 1,
         RegOp.add 2 ShapeType.Cube ⟨0, 0, 0⟩ none 1] =
      List.range (countAdds
        [RegOp.add 1 ShapeType.Ball ⟨0, 0, 0⟩ none 0, RegOp.remove 1,
         RegOp.add 2 ShapeType.Cube ⟨0, 0, 0⟩ none 1]) ∧
    (addIdsFrom initManager
        [RegOp.add 1 ShapeType.Ball ⟨0, 0, 0⟩ none 0, RegOp.remove 1,
         RegOp.add 2 ShapeType.Cube ⟨0, 0, 0⟩ none 1]).Nodup ∧
    (runOps [RegOp.add 1 ShapeType.Ball ⟨0, 0, 0⟩ none 0]).next_id ≤
      (runOps [RegOp.add 1 ShapeType.Ball ⟨0, 0, 0⟩ none 0, RegOp.remove 1,
         RegOp.add 2 ShapeType.Cube ⟨0, 0, 0⟩ none 1]).next_id :=
  add_ids_sequential _
    [RegOp.add 1 ShapeType.Ball ⟨0, 0, 0⟩ none 0]
    [RegOp.remove 1, RegOp.add 2 ShapeType.Cube ⟨0, 0, 0⟩ none 1] rfl

theorem remove_object_sublist (m : GameObjectManager) (e : Nat) :
    (m.remove_object e).2.objects.Sublist m.objects := by
  cases hrf : removeFirst (fun obj => obj.entity == e) m.objects with
  | none =>
      simp only [GameObjectManager.remove_object, hrf]
      exact List.Sublist.refl _
  | some r =>
      obtain ⟨a, rest⟩ := r
      simp only [GameObjectManager.remove_object, hrf]
      obtain ⟨l₁, l₂, hl, hrest, _, _⟩ := removeFirst_eq_some_decomp hrf
      rw [hrest, hl]
      exact List.Sublist.append_left (List.sublist_cons_self a l₂) l₁

theorem inv_applyOp (m : GameObjectManager) (op : RegOp)
    (h1 : ∀ o ∈ m.objects, o.id < m.next_id)
    (h2 : m.objects.Pairwise (fun a b => a.id < b.id)) :
    (∀ o ∈ (applyOp m op).objects, o.id < (applyOp m op).next_id) ∧
    (applyOp m op).objects.Pairwise (fun a b => a.id < b.id) := by
  cases op with
  | add e s p n t =>
      constructor
      · intro o ho
        show o.id < m.next_id + 1
        rcases List.mem_append.mp ho with ho' | ho'
        · exact Nat.lt_succ_of_lt (h1 o ho')
        · rw [List.mem_singleton.mp ho']
          exact Nat.lt_succ_self _
      · show (m.objects ++ [_]).Pairwise _
        refine List.pairwise_append.mpr ⟨h2, List.pairwise_singleton _ _, ?_⟩
        intro a ha b hb
        rw [List.mem_singleton.mp hb]
        exact h1 a ha
  | remove e =>
      have hsub := remove_object_sublist m e
      constructor
      · intro o ho
        have hnid : (applyOp m (RegOp.remove e)).next_id = m.next_id :=
          remove_object_next_id m e
        rw [hnid]
        exact h1 o (hsub.subset ho)
      · exact List.Pairwise.sublist hsub h2

theorem runOpsFrom_inv (ops : List RegOp) : ∀ m : GameObjectManager,
    (∀ o ∈ m.objects, o.id < m.next_id) →
    m.objects.Pairwise (fun a b => a.id < b.id) →
    (∀ o ∈ (runOpsFrom m ops).objects, o.id < (runOpsFrom m ops).next_id) ∧
    (runOpsFrom m ops).objects.Pairwise (fun a b => a.id < b.id) := by
  induction ops with
  | nil => exact fun m h1 h2 => ⟨h1, h2⟩
  | cons op rest ih =>
      intro m h1 h2
      have hstep := inv_applyOp m op h1 h2
      exact ih (applyOp m op) hstep.1 hstep.2

theorem filter_id_len_le_one (l : List GameObject) (i : Nat)
    (h : l.Pairwise (fun a b => a.id < b.id)) :
    (l.filter (fun o => o.id == i)).length ≤ 1 := by
  induction l with
  | nil => simp
  | cons a l ihl =>
      rw [List.pairwise_cons] at h
      by_cases ha : a.id = i
      · have hnil : l.filter (fun o => o.id == i) = [] := by
          rw [List.filter_eq_nil_iff]
          intro b hb
          have hlt := h.1 b hb
          simp only [beq_iff_eq]
          omega
        simp [List.filter_cons, ha, hnil]
      · have hfalse : (a.id == i) = false := by
          simp only [beq_eq_false_iff_ne, ne_eq]
          exact ha
        rw [List.filter_cons]
        simp only [hfalse, Bool.false_eq_true, if_false]
        exact ihl h.2

/-- C8: in every manager state reachable from the initial one by adds and
removes, the stored ids are strictly increasing along insertion order, every
stored id is strictly below `next_id`, and consequently each id matches at
most one live object (so `get_object_by_id` has at most one candidate). -/
theorem reachable_registry_invariant (ops : List RegOp) :
    (runOps ops).objects.Pairwise (fun a b => a.id < b.id) ∧
    (∀ o ∈ (runOps ops).objects, o.id < (runOps ops).next_id) ∧
    ∀ i : Nat, ((runOps ops).objects.filter (fun o => o.id == i)).length ≤ 1 := by
  have h := runOpsFrom_inv ops initManager
    (by intro o ho; simp [initManager] at ho)
    (by simp [initManager])
  exact ⟨h.2, h.1, fun i => filter_id_len_le_one _ i h.2⟩

/-- C6: `list_objects` yields one line per live object in insertion order,
formatted "name (ID: id, Type: label)", and insertion order survives
removals: on any manager free of entity `eB`, adding A, B, C (B carrying
entity `eB`), removing `eB`, then adding D appends exactly the summaries of
A, C, D, in that order, after the manager's previous summaries. -/
theorem list_summaries_insertion_order (m : GameObjectManager)
    (eA eB eC eD : Nat) (sA sB sC sD : ShapeType) (pA pB pC pD : Vec3)
    (nA nB nC nD : String) (tA tB tC tD : Rat)
    (hm : ∀ o ∈ m.objects, o.entity ≠ eB) (hA : eA ≠ eB) :
    (((((m.add_object eA sA pA (some nA) tA).2.add_object eB sB pB (some nB)
        tB).2.add_object eC sC pC (some nC) tC).2.remove_object
        eB).2.add_object eD sD pD (some nD) tD).2.list_objects =
      m.list_objects ++
        [nA ++ " (ID: " ++ toString m.next_id ++ ", Type: " ++
           sA.display_name ++ ")",
         nC ++ " (ID: " ++ toString (m.next_id + 2) ++ ", Type: " ++
           sC.display_name ++ ")",
         nD ++ " (ID: " ++ toString (m.next_id + 3) ++ ", Type: " ++
           sD.display_name ++ ")"] := by
  have hpA : (eA == eB) = false := by
    simp only [beq_eq_false_iff_ne, ne_eq]
    exact hA
  have hmB : ∀ o ∈ m.objects, (o.entity == eB) = false := by
    intro o ho
    simp only [beq_eq_false_iff_ne, ne_eq]
    exact hm o ho
  have h3o : (((m.add_object eA sA pA (some nA) tA).2.add_object eB sB pB (some nB)
      tB).2.add_object eC sC pC (some nC) tC).2.objects =
      m.objects ++
        ([{ id := m.next_id, name := nA, entity := eA, shape_type := sA,
            position := pA, created_at := tA },
          { id := m.next_id + 1, name := nB, entity := eB, shape_type := sB,
            position := pB, created_at := tB },
          { id := m.next_id + 1 + 1, name := nC, entity := eC, shape_type := sC,
            position := pC, created_at := tC }] : List GameObject) := by
    simp [GameObjectManager.add_object, List.append_assoc]
  have hrl : removeFirst (fun obj => obj.entity == eB)
      ([{ id := m.next_id, name := nA, entity := eA, shape_type := sA,
          position := pA, created_at := tA },
        { id := m.next_id + 1, name := nB, entity := eB, shape_type := sB,
          position := pB, created_at := tB },
        { id := m.next_id + 1 + 1, name := nC, entity := eC, shape_type := sC,
          position := pC, created_at := tC }] : List GameObject) =
      some ({ id := m.next_id + 1, name := nB, entity := eB, shape_type := sB,
              position := pB, created_at := tB },
            [{ id := m.next_id, name := nA, entity := eA, shape_type := sA,
               position := pA, created_at := tA },
             { id := m.next_id + 1 + 1, name := nC, entity := eC, shape_type := sC,
               position := pC, created_at := tC }]) := by
    simp [removeFirst, hpA]
  have h4r : removeFirst (fun obj => obj.entity == eB)
      ((((m.add_object eA sA pA (some nA) tA).2.add_object eB sB pB (some nB)
        tB).2.add_object eC sC pC (some nC) tC).2.objects) =
      some ({ id := m.next_id + 1, name := nB, entity := eB, shape_type := sB,
              position := pB, created_at := tB },
            m.objects ++
              [{ id := m.next_id, name := nA, entity := eA, shape_type := sA,
                 position := pA, created_at := tA },
               { id := m.next_id + 1 + 1, name := nC, entity := eC, shape_type := sC,
                 position := pC, created_at := tC }]) := by
    rw [h3o, removeFirst_append_skip _ _ _ hmB, hrl]
    rfl
  have h4 : ((((m.add_object eA sA pA (some nA) tA).2.add_object eB sB pB (some nB)
      tB).2.add_object eC sC pC (some nC) tC).2.remove_object eB).2 =
      (⟨m.objects ++
          [{ id := m.next_id, name := nA, entity := eA, shape_type := sA,
             position := pA, created_at := tA },
           { id := m.next_id + 1 + 1, name := nC, entity := eC, shape_type := sC,
             position := pC, created_at := tC }],
        m.next_id + 1 + 1 + 1⟩ : GameObjectManager) := by
    simp only [GameObjectManager.remove_object, h4r]
    rfl
  have h5o : ((⟨m.objects ++
      [{ id := m.next_id, name := nA, entity := eA, shape_type := sA,
         position := pA, created_at := tA },
       { id := m.next_id + 1 + 1, name := nC, entity := eC, shape_type := sC,
         position := pC, created_at := tC }],
      m.next_id + 1 + 1 + 1⟩ : GameObjectManager).add_object eD sD pD
        (some nD) tD).2.objects =
      m.objects ++
        ([{ id := m.next_id, name := nA, entity := eA, shape_type := sA,
            position := pA, created_at := tA },
          { id := m.next_id + 1 + 1, name := nC, entity := eC, shape_type := sC,
            position := pC, created_at := tC },
          { id := m.next_id + 1 + 1 + 1, name := nD, entity := eD, shape_type := sD,
            position := pD, created_at := tD }] : List GameObject) := by
    simp [GameObjectManager.add_object, List.append_assoc]
  simp only [GameObjectManager.list_objects, h4, h5o, List.map_append]
  rfl

/-- Witness for C6 on the empty manager: add A, B, C, remove B's entity,
add D; the summaries come out as A, C, D. -/
theorem list_summaries_insertion_order_witness :
    (∀ o ∈ initManager.objects, o.entity ≠ 2) ∧ (1 : Nat) ≠ 2 ∧
    (((((initManager.add_object 1 ShapeType.Ball ⟨0, 0, 0⟩ (some "A")
        0).2.add_object 2 ShapeType.Cube ⟨0, 0, 0⟩ (some "B")
        0).2.add_object 3 ShapeType.Capsule ⟨0, 0, 0⟩ (some "C")
        0).2.remove_object 2).2.add_object 4 ShapeType.Cylinder ⟨0, 0, 0⟩
        (some "D") 0).2.list_objects =
      initManager.list_objects ++
        ["A" ++ " (ID: " ++ toString initManager.next_id ++ ", Type: " ++
           ShapeType.Ball.display_name ++ ")",
         "C" ++ " (ID: " ++ toString (initManager.next_id + 2) ++ ", Type: " ++
           ShapeType.Capsule.display_name ++ ")",
         "D" ++ " (ID: " ++ toString (initManager.next_id + 3) ++ ", Type: " ++
           ShapeType.Cylinder.display_name ++ ")"] := by
  have hm : ∀ o ∈ initManager.objects, o.entity ≠ 2 := by decide
  have hA : (1 : Nat) ≠ 2 := by decide
  exact ⟨hm, hA,
    list_summaries_insertion_order initManager 1 2 3 4
      ShapeType.Ball ShapeType.Cube ShapeType.Capsule ShapeType.Cylinder
      ⟨0, 0, 0⟩ ⟨0, 0, 0⟩ ⟨0, 0, 0⟩ ⟨0, 0, 0⟩ "A" "B" "C" "D" 0 0 0 0 hm hA⟩

/-- C10: every spawn event the Space-key handler emits carries
`custom_name = some "bob"` and a position with `y = 4` and `x`, `z` in
`[-5, 5]` (the random draws lie in `[0, 1)`); registering such an event
therefore never exercises the "label id" fallback: the object appended by
`add_object` is named "bob". -/
theorem keyboard_spawn_named_bob (rx rz : Rat) (s : ShapeType)
    (m : GameObjectManager) (ent : Nat) (t : Rat)
    (hx0 : 0 ≤ rx) (hx1 : rx < 1) (hz0 : 0 ≤ rz) (hz1 : rz < 1) :
    ∀ ev, handle_input true rx rz s = some ev →
      ev.custom_name = some "bob" ∧
      ev.position.y = 4 ∧
      -5 ≤ ev.position.x ∧ ev.position.x ≤ 5 ∧
      -5 ≤ ev.position.z ∧ ev.position.z ≤ 5 ∧
      (m.add_object ent ev.shape_type ev.position ev.custom_name t).2.objects.getLast? =
        some { id := m.next_id, name := "bob", entity := ent,
               shape_type := ev.shape_type, position := ev.position,
               created_at := t } := by
  intro ev hev
  have hev' : ev = { position := ⟨(rx - 1/2) * 10, 4, (rz - 1/2) * 10⟩,
                     shape_type := s, custom_name := some "bob" } := by
    have := hev.symm
    simpa [handle_input] using this
  subst hev'
  refine ⟨rfl, rfl, ?_, ?_, ?_, ?_, ?_⟩
  · show (-5 : Rat) ≤ (rx - 1/2) * 10
    nlinarith
  · show (rx - 1/2) * 10 ≤ (5 : Rat)
    nlinarith
  · show (-5 : Rat) ≤ (rz - 1/2) * 10
    nlinarith
  · show (rz - 1/2) * 10 ≤ (5 : Rat)
    nlinarith
  · exact List.getLast?_concat _

/-- Witness for C10: both draws at 1/2 put the spawn at the origin column,
named "bob". -/
theorem keyboard_spawn_named_bob_witness :
    ((0 : Rat) ≤ 1/2 ∧ (1/2 : Rat) < 1) ∧
    (bobEv.custom_name = some "bob" ∧
     bobEv.position.y = 4 ∧
     -5 ≤ bobEv.position.x ∧ bobEv.position.x ≤ 5 ∧
     -5 ≤ bobEv.position.z ∧ bobEv.position.z ≤ 5 ∧
     (initManager.add_object 7 bobEv.shape_type bobEv.position bobEv.custom_name
        0).2.objects.getLast? =
       some { id := initManager.next_id, name := "bob", entity := 7,
              shape_type := bobEv.shape_type, position := bobEv.position,
              created_at := 0 }) := by
  have h0 : (0 : Rat) ≤ 1/2 := by norm_num
  have h1 : (1/2 : Rat) < 1 := by norm_num
  refine ⟨⟨h0, h1⟩, ?_⟩
  exact keyboard_spawn_named_bob (1/2) (1/2) ShapeType.Ball initManager 7 0 h0 h1 h0 h1
    bobEv (by norm_num [handle_input, bobEv])

/-- Witness for C8 after one concrete add: the invariant holds, the stored
object's id is below the counter, and id 0 matches at most one object. -/
theorem reachable_registry_invariant_witness :
    (runOps [RegOp.add 1 ShapeType.Ball ⟨0, 0, 0⟩ none 0]).objects.Pairwise
      (fun a b => a.id < b.id) ∧
    ({ id := 0, name := "Ball 0", entity := 1, shape_type := ShapeType.Ball,
       position := ⟨0, 0, 0⟩, created_at := 0 } : GameObject).id <
      (runOps [RegOp.add 1 ShapeType.Ball ⟨0, 0, 0⟩ none 0]).next_id ∧
    ((runOps [RegOp.add 1 ShapeType.Ball ⟨0, 0, 0⟩ none 0]).objects.filter
      (fun o => o.id == 0)).length ≤ 1 := by
  have h := reachable_registry_invariant [RegOp.add 1 ShapeType.Ball ⟨0, 0, 0⟩ none 0]
  exact ⟨h.1,
    h.2.1 { id := 0, name := "Ball 0", entity := 1, shape_type := ShapeType.Ball,
            position := ⟨0, 0, 0⟩, created_at := 0 } (by decide),
    h.2.2 0⟩
